import Mathlib

/-!
Shallow embedding of the email-triage MVP (triage engine, task reconciler,
digest bucket assigner, follow-up detector) together with proofs about the
properties its specification states.

Python strings are modelled by `String`, Python `None` by `Option.none`,
dictionaries by structures with `Option`-valued fields (outer `Option` =
"key present", inner `Option` = "value may be `None`" where the code can
observe the difference), and SQLite tables by lists of row structures.
Machine-word arithmetic in the SHA-1 hash is done on `Nat` with explicit
`% 2^32` reductions.
-/

namespace EmailMVP

/-! ## Python string primitives

Models of the Python `str` methods used by the code: `lower` (ASCII case
mapping, which is all the code relies on), `strip` (trim whitespace on both
ends), and the substring test `x in s`. -/

/-- Model of Python `str.lower` on one character (ASCII range). -/
def lowerChar (c : Char) : Char :=
  if 65 ≤ c.toNat ∧ c.toNat ≤ 90 then Char.ofNat (c.toNat + 32) else c

/-- Model of Python `str.lower`. -/
def pyLower (s : String) : String :=
  ⟨s.data.map lowerChar⟩

/-- Strip leading and trailing whitespace from a character list. -/
def stripList (l : List Char) : List Char :=
  ((l.dropWhile Char.isWhitespace).reverse.dropWhile Char.isWhitespace).reverse

/-- Model of Python `str.strip`. -/
def pyStrip (s : String) : String :=
  ⟨stripList s.data⟩

/-- Contiguous-sublist test on lists (Boolean). -/
def infixOfB [BEq α] (needle : List α) : List α → Bool
  | [] => needle.isEmpty
  | h :: t => needle.isPrefixOf (h :: t) || infixOfB needle t

/-- Model of the Python substring test `needle in hay`. -/
def substr (needle hay : String) : Bool :=
  infixOfB needle.data hay.data

theorem toNat_ofNat_of_valid {n : Nat} (h : n < 55296) : (Char.ofNat n).toNat = n := by
  have hv : n.isValidChar := Or.inl (by exact_mod_cast h)
  simp only [Char.ofNat, dif_pos hv, Char.ofNatAux, Char.toNat, UInt32.toNat]
  simp

theorem toNat_lowerChar (c : Char) :
    (lowerChar c).toNat = if 65 ≤ c.toNat ∧ c.toNat ≤ 90 then c.toNat + 32 else c.toNat := by
  unfold lowerChar
  split
  · next h => exact toNat_ofNat_of_valid (by omega)
  · rfl

theorem char_eq_iff_toNat {c d : Char} : c = d ↔ c.toNat = d.toNat := by
  constructor
  · intro h; rw [h]
  · intro h
    exact Char.eq_of_val_eq (UInt32.toNat.inj h)

theorem lowerChar_idem (c : Char) : lowerChar (lowerChar c) = lowerChar c := by
  unfold lowerChar
  split
  · next h =>
    have hv : (Char.ofNat (c.toNat + 32)).toNat = c.toNat + 32 :=
      toNat_ofNat_of_valid (by omega)
    rw [if_neg]
    omega
  · rfl

theorem not_isWhitespace_of_ge (d : Char) (hd : 33 ≤ d.toNat) : d.isWhitespace = false := by
  simp only [Char.isWhitespace]
  rw [decide_eq_false (p := d = ' ') (fun h => by subst h; exact absurd hd (by decide)),
      decide_eq_false (p := d = '\t') (fun h => by subst h; exact absurd hd (by decide)),
      decide_eq_false (p := d = '\r') (fun h => by subst h; exact absurd hd (by decide)),
      decide_eq_false (p := d = '\n') (fun h => by subst h; exact absurd hd (by decide))]
  rfl

theorem isWhitespace_lowerChar (c : Char) :
    (lowerChar c).isWhitespace = c.isWhitespace := by
  unfold lowerChar
  split
  · next h =>
    have hv : (Char.ofNat (c.toNat + 32)).toNat = c.toNat + 32 :=
      toNat_ofNat_of_valid (by omega)
    rw [not_isWhitespace_of_ge _ (by omega), not_isWhitespace_of_ge _ (by omega)]
  · rfl

theorem map_lowerChar_idem (l : List Char) :
    (l.map lowerChar).map lowerChar = l.map lowerChar := by
  rw [List.map_map]
  exact List.map_congr_left (fun a _ => lowerChar_idem a)

theorem dropWhile_ws_map_lower (l : List Char) :
    (l.map lowerChar).dropWhile Char.isWhitespace
      = (l.dropWhile Char.isWhitespace).map lowerChar := by
  rw [List.dropWhile_map]
  rw [show (Char.isWhitespace ∘ lowerChar) = Char.isWhitespace from funext isWhitespace_lowerChar]

theorem stripList_map_lower (l : List Char) :
    stripList (l.map lowerChar) = (stripList l).map lowerChar := by
  unfold stripList
  rw [dropWhile_ws_map_lower, ← List.map_reverse, dropWhile_ws_map_lower, ← List.map_reverse]

theorem dropWhile_idem (p : α → Bool) (l : List α) :
    (l.dropWhile p).dropWhile p = l.dropWhile p := by
  induction l with
  | nil => rfl
  | cons a t ih =>
    by_cases h : p a
    · rw [List.dropWhile_cons_of_pos h]; exact ih
    · rw [List.dropWhile_cons_of_neg h, List.dropWhile_cons_of_neg h]

theorem dropWhile_prefix_self {p : α → Bool} {u a : List α}
    (hpre : u <+: a) (ha : a.dropWhile p = a) : u.dropWhile p = u := by
  cases u with
  | nil => rfl
  | cons c t =>
    obtain ⟨s, hs⟩ := hpre
    subst hs
    rw [List.cons_append] at ha
    by_cases h : p c
    · exfalso
      rw [List.dropWhile_cons_of_pos h] at ha
      have h1 := congrArg List.length ha
      rw [List.length_cons] at h1
      have hle := (List.dropWhile_sublist (p := p) (l := t ++ s)).length_le
      omega
    · rw [List.dropWhile_cons_of_neg h]

theorem stripList_idem (l : List Char) : stripList (stripList l) = stripList l := by
  unfold stripList
  set w := Char.isWhitespace with hw
  set a := l.dropWhile w with hadef
  set r := a.reverse.dropWhile w with hrdef
  have ha : a.dropWhile w = a := by rw [hadef]; exact dropWhile_idem w l
  have hpre : r.reverse <+: a := by
    have hsuf : r <:+ a.reverse := by rw [hrdef]; exact List.dropWhile_suffix w
    have := List.reverse_prefix.mpr (by simpa using hsuf)
    simpa using this
  have h1 : r.reverse.dropWhile w = r.reverse := dropWhile_prefix_self hpre ha
  rw [h1, List.reverse_reverse]
  rw [show r.dropWhile w = r from by rw [hrdef]; exact dropWhile_idem w a.reverse]

/-- `.strip().lower()` composite: the normalization the code applies to
priority / domain / intent values and to task titles. -/
def normStr (s : String) : String := pyLower (pyStrip s)

theorem normStr_idem (s : String) : normStr (normStr s) = normStr s := by
  unfold normStr pyLower pyStrip
  apply congrArg String.mk
  show (stripList ((stripList s.data).map lowerChar)).map lowerChar
      = (stripList s.data).map lowerChar
  rw [stripList_map_lower, stripList_idem, map_lowerChar_idem]

/-! ## SHA-1 (`hashlib.sha1(...).hexdigest()` over the UTF-8 bytes)

Executable model of the hash used by `store._task_key`, on `Nat` with
explicit `% 2^32` reductions. -/

/-- UTF-8 encoding of a single code point, as byte values. -/
def utf8Encode (n : Nat) : List Nat :=
  if n < 128 then [n]
  else if n < 2048 then [192 + n / 64, 128 + n % 64]
  else if n < 65536 then [224 + n / 4096, 128 + (n / 64) % 64, 128 + n % 64]
  else [240 + n / 262144, 128 + (n / 4096) % 64, 128 + (n / 64) % 64, 128 + n % 64]

/-- UTF-8 bytes of a string. -/
def strBytes (s : String) : List Nat :=
  s.data.foldr (fun c acc => utf8Encode c.toNat ++ acc) []

/-- 32-bit left rotation on `Nat` values below `2^32`. -/
def rotl (n x : Nat) : Nat :=
  ((x <<< n) % 4294967296) ||| (x >>> (32 - n))

/-- SHA-1 padding: append `0x80`, zero bytes to 56 mod 64, and the
64-bit big-endian bit length. -/
def sha1Pad (msg : List Nat) : List Nat :=
  let len := msg.length
  let zeros := (119 - len % 64) % 64
  let bitLen := len * 8
  msg ++ [128] ++ List.replicate zeros 0 ++
    (List.range 8).map (fun i => (bitLen >>> (8 * (7 - i))) % 256)

/-- Big-endian 32-bit words from a byte list. -/
def bytesToWords : List Nat → List Nat
  | b0 :: b1 :: b2 :: b3 :: rest => (((b0 * 256 + b1) * 256 + b2) * 256 + b3) :: bytesToWords rest
  | _ => []

/-- Message-schedule expansion: `prev` holds already-computed words most
recent first; `k` more words are produced. -/
def sha1Expand (prev : List Nat) : Nat → List Nat
  | 0 => prev.reverse
  | k + 1 =>
    let x := prev.getD 2 0 ^^^ prev.getD 7 0 ^^^ prev.getD 13 0 ^^^ prev.getD 15 0
    sha1Expand (rotl 1 x :: prev) k

/-- One SHA-1 round. -/
def sha1Round (st : Nat × Nat × Nat × Nat × Nat) (iw : Nat × Nat) : Nat × Nat × Nat × Nat × Nat :=
  let (a, b, c, d, e) := st
  let (i, w) := iw
  let fk : Nat × Nat :=
    if i < 20 then ((b &&& c) ||| ((b ^^^ 4294967295) &&& d), 1518500249)
    else if i < 40 then (b ^^^ c ^^^ d, 1859775393)
    else if i < 60 then ((b &&& c) ||| (b &&& d) ||| (c &&& d), 2400959708)
    else (b ^^^ c ^^^ d, 3395469782)
  ((rotl 5 a + fk.1 + e + fk.2 + w) % 4294967296, a, rotl 30 b, c, d)

/-- Process one 64-byte chunk. -/
def sha1Chunk (h : Nat × Nat × Nat × Nat × Nat) (chunk : List Nat) : Nat × Nat × Nat × Nat × Nat :=
  let w := sha1Expand (bytesToWords chunk).reverse 64
  let (h0, h1, h2, h3, h4) := h
  let st := ((List.range 80).zip w).foldl sha1Round (h0, h1, h2, h3, h4)
  ((h0 + st.1) % 4294967296, (h1 + st.2.1) % 4294967296, (h2 + st.2.2.1) % 4294967296,
   (h3 + st.2.2.2.1) % 4294967296, (h4 + st.2.2.2.2) % 4294967296)

/-- Split a byte list into 64-byte chunks. -/
def chunks64 : List Nat → List (List Nat)
  | [] => []
  | b :: rest => (b :: rest).take 64 :: chunks64 ((b :: rest).drop 64)
termination_by l => l.length
decreasing_by simp; omega

/-- The five 32-bit state words of the SHA-1 digest of a byte list. -/
def sha1Digest (msg : List Nat) : Nat × Nat × Nat × Nat × Nat :=
  (chunks64 (sha1Pad msg)).foldl sha1Chunk
    (1732584193, 4023233417, 2562383102, 271733878, 3285377520)

/-- One lower-case hex digit. -/
def hexDigit (n : Nat) : Char :=
  if n < 10 then Char.ofNat (48 + n) else Char.ofNat (87 + n)

/-- Eight lower-case hex digits of a 32-bit word, most significant first. -/
def toHex8 (w : Nat) : List Char :=
  (List.range 8).map (fun i => hexDigit ((w >>> (4 * (7 - i))) % 16))

/-- `hashlib.sha1(s.encode("utf-8")).hexdigest()`. -/
def sha1Hex (s : String) : String :=
  let d := sha1Digest (strBytes s)
  ⟨toHex8 d.1 ++ toHex8 d.2.1 ++ toHex8 d.2.2.1 ++ toHex8 d.2.2.2.1 ++ toHex8 d.2.2.2.2⟩

/-! ## `store._task_key` -/

/-- `(due or '').strip()`: the normalized due-date component of the key.
`due` is `Option String`: `none` models Python `None`.  `due or ''` maps
both `None` and `""` to `""`. -/
def normDue (due : Option String) : String :=
  pyStrip (match due with | none => "" | some s => s)

/-- The string hashed by `_task_key`:
`f"{provider}|{thread_id}|{title.strip().lower()}|{(due or '').strip()}"`. -/
def taskKeyBase (provider thread_id title : String) (due : Option String) : String :=
  provider ++ "|" ++ thread_id ++ "|" ++ normStr title ++ "|" ++ normDue due

/-- `store._task_key`. -/
def _task_key (provider thread_id title : String) (due : Option String) : String :=
  sha1Hex (taskKeyBase provider thread_id title due)

theorem string_append_left_inj (s a b : String) : s ++ a = s ++ b ↔ a = b := by
  rw [String.ext_iff, String.data_append, String.data_append,
      List.append_right_inj, ← String.ext_iff]

theorem taskKeyBase_eq_iff (p t ti : String) (d1 d2 : Option String) :
    taskKeyBase p t ti d1 = taskKeyBase p t ti d2 ↔ normDue d1 = normDue d2 := by
  unfold taskKeyBase
  simp only [String.append_assoc, string_append_left_inj]

/-! ## `store` task table model

The `tasks` table is a list of rows.  `INSERT OR IGNORE` together with the
unique index `ux_tasks_task_key` inserts a row only when no row with the
same `task_key` exists; the `NOT NULL` constraint on `priority` makes
`INSERT OR IGNORE` silently skip a row whose priority value is `NULL`
(the other inserted columns are non-null strings by construction, and
`due_date` / `notes` are nullable). -/

structure TaskRow where
  id : Nat
  provider : String
  thread_id : String
  created_at : String
  status : String
  priority : Option String
  title : String
  due_date : Option String
  notes : Option String
  task_key : String
deriving DecidableEq, Repr

/-- Does the table contain a row with this `task_key`? -/
def hasKey (tasks : List TaskRow) (k : String) : Bool :=
  tasks.any (fun r => r.task_key = k)

/-- Number of rows carrying a given `task_key`. -/
def countKey (tasks : List TaskRow) (k : String) : Nat :=
  (tasks.filter (fun r => r.task_key = k)).length

/-- Next `AUTOINCREMENT` id. -/
def nextId (tasks : List TaskRow) : Nat :=
  tasks.foldl (fun m r => max m r.id) 0 + 1

/-- A row as assembled by the `INSERT OR IGNORE INTO tasks(...)` statement
(`status` takes its column default `'open'`). -/
structure PendingTask where
  provider : String
  thread_id : String
  created_at : String
  priority : Option String
  title : String
  due_date : Option String
  notes : Option String
  task_key : String
deriving DecidableEq, Repr

/-- `INSERT OR IGNORE` of one pending row: skipped when the unique
`task_key` index already holds the key, or when `priority` is `NULL`
(`NOT NULL` constraint, resolved by `IGNORE`). -/
def insertOrIgnoreTask (tasks : List TaskRow) (r : PendingTask) : List TaskRow :=
  if hasKey tasks r.task_key then tasks
  else match r.priority with
    | none => tasks
    | some pr =>
      tasks ++ [⟨nextId tasks, r.provider, r.thread_id, r.created_at, "open",
                some pr, r.title, r.due_date, r.notes, r.task_key⟩]

/-! ## Triage output dictionaries

A recommended action / extraction / top-level classification output as a
Python dict.  For the top level, the outer `Option` distinguishes "key
absent" from "key present", and the inner `Option` a present `None` value,
both of which `dict.update` / `dict.get` treat differently.  For action
dicts only `.get` is used, so one `Option` (absent-or-`None`) suffices. -/

structure ActionDict where
  action : Option String
  title : Option String
  notes : Option String
  due_date : Option String
  urgency_window : Option String
deriving DecidableEq, Repr

structure ExtractionDict where
  type : String
  summary : String
  due_date : Option String
  amount : Option String
  currency : Option String
  invoice_id : Option String
  counterparty : Option String
  confidence : Rat
deriving DecidableEq, Repr

structure TriageDict where
  domain : Option (Option String)
  intent : Option (Option String)
  priority : Option (Option String)
  confidence : Option (Option Rat)
  rationale : Option (Option String)
  extractions : Option (Option (List ExtractionDict))
  recommended_actions : Option (Option (List ActionDict))
deriving DecidableEq, Repr

/-- `triage_output.get("priority","normal")`. -/
def taskPriority (out : TriageDict) : Option String :=
  match out.priority with
  | some v => v
  | none => some "normal"

/-- `triage_output.get("recommended_actions", [])`.  (A present explicit
`None` value would make the Python `for` loop raise; classification
outputs always carry a list there, and the model iterates nothing.) -/
def actionsOf (out : TriageDict) : List ActionDict :=
  match out.recommended_actions with
  | some (some l) => l
  | _ => []

/-- `a.get("action") in ("create_task","send_reminder","review_needed")`. -/
def qualifies (a : ActionDict) : Bool :=
  a.action = some "create_task" || a.action = some "send_reminder" ||
    a.action = some "review_needed"

/-- `a.get("title") or "Follow up"`. -/
def actionTitle (a : ActionDict) : String :=
  match a.title with
  | some s => if s = "" then "Follow up" else s
  | none => "Follow up"

/-- `a.get("notes") or triage_output.get("rationale","")`. -/
def actionNotes (out : TriageDict) (a : ActionDict) : Option String :=
  let rat : Option String :=
    match out.rationale with
    | some v => v
    | none => some ""
  match a.notes with
  | some s => if s = "" then rat else some s
  | none => rat

/-- The row built for one recommended action by `create_tasks_from_actions`. -/
def pendingOf (provider thread_id created_at : String) (out : TriageDict)
    (a : ActionDict) : PendingTask :=
  ⟨provider, thread_id, created_at, taskPriority out, actionTitle a, a.due_date,
   actionNotes out a, _task_key provider thread_id (actionTitle a) a.due_date⟩

/-- `store.create_tasks_from_actions`. -/
def create_tasks_from_actions (tasks : List TaskRow)
    (provider thread_id created_at : String) (out : TriageDict) : List TaskRow :=
  (actionsOf out).foldl
    (fun db a =>
      if qualifies a then
        insertOrIgnoreTask db (pendingOf provider thread_id created_at out a)
      else db)
    tasks

theorem insertOrIgnore_of_hasKey {db : List TaskRow} {r : PendingTask}
    (h : hasKey db r.task_key) : insertOrIgnoreTask db r = db := by
  unfold insertOrIgnoreTask
  rw [if_pos h]

theorem insertOrIgnore_of_none {db : List TaskRow} {r : PendingTask}
    (h : r.priority = none) : insertOrIgnoreTask db r = db := by
  unfold insertOrIgnoreTask
  split
  · rfl
  · rw [h]

theorem hasKey_append (db : List TaskRow) (row : TaskRow) (k : String) :
    hasKey (db ++ [row]) k = (hasKey db k || decide (row.task_key = k)) := by
  simp [hasKey]

theorem hasKey_insertOrIgnore_mono {db : List TaskRow} (r : PendingTask) {k : String}
    (h : hasKey db k) : hasKey (insertOrIgnoreTask db r) k := by
  unfold insertOrIgnoreTask
  split
  · exact h
  · split
    · exact h
    · rw [hasKey_append, h, Bool.true_or]

theorem hasKey_insertOrIgnore_self {db : List TaskRow} {r : PendingTask}
    (h : r.priority ≠ none) : hasKey (insertOrIgnoreTask db r) r.task_key := by
  unfold insertOrIgnoreTask
  split
  · next hk => exact hk
  · split
    · next heq => exact absurd heq h
    · rw [hasKey_append]
      simp

/-- The per-action step of `create_tasks_from_actions`. -/
def reconcileStep (provider thread_id created_at : String) (out : TriageDict)
    (db : List TaskRow) (a : ActionDict) : List TaskRow :=
  if qualifies a then
    insertOrIgnoreTask db (pendingOf provider thread_id created_at out a)
  else db

theorem create_tasks_eq_foldl (tasks : List TaskRow)
    (provider thread_id created_at : String) (out : TriageDict) :
    create_tasks_from_actions tasks provider thread_id created_at out
      = (actionsOf out).foldl (reconcileStep provider thread_id created_at out) tasks := rfl

theorem hasKey_step_mono {p t ts : String} {out : TriageDict} {db : List TaskRow}
    {k : String} (a : ActionDict) (h : hasKey db k) :
    hasKey (reconcileStep p t ts out db a) k := by
  unfold reconcileStep
  split
  · exact hasKey_insertOrIgnore_mono _ h
  · exact h

theorem hasKey_fold_mono {p t ts : String} {out : TriageDict} {k : String} :
    ∀ (as : List ActionDict) (db : List TaskRow), hasKey db k →
      hasKey (as.foldl (reconcileStep p t ts out) db) k := by
  intro as
  induction as with
  | nil => intro db h; exact h
  | cons a as ih =>
    intro db h
    exact ih _ (hasKey_step_mono a h)

theorem hasKey_fold_of_mem {p t ts : String} {out : TriageDict}
    (hpr : taskPriority out ≠ none) :
    ∀ (as : List ActionDict) (db : List TaskRow) (a : ActionDict), a ∈ as →
      qualifies a →
      hasKey (as.foldl (reconcileStep p t ts out) db)
        (_task_key p t (actionTitle a) a.due_date) := by
  intro as
  induction as with
  | nil => intro db a h; exact absurd h (List.not_mem_nil a)
  | cons b bs ih =>
    intro db a hmem hq
    rcases List.mem_cons.mp hmem with heq | htail
    · subst heq
      show hasKey (bs.foldl (reconcileStep p t ts out) (reconcileStep p t ts out db a))
        (_task_key p t (actionTitle a) a.due_date) = true
      apply hasKey_fold_mono
      unfold reconcileStep
      rw [if_pos hq]
      exact hasKey_insertOrIgnore_self hpr
    · exact ih _ a htail hq

theorem fold_noop {p t ts : String} {out : TriageDict} :
    ∀ (as : List ActionDict) (db : List TaskRow),
      (∀ a ∈ as, reconcileStep p t ts out db a = db) →
      as.foldl (reconcileStep p t ts out) db = db := by
  intro as
  induction as with
  | nil => intro db _; rfl
  | cons a as ih =>
    intro db h
    have h0 := h a (List.mem_cons_self a as)
    show as.foldl (reconcileStep p t ts out) (reconcileStep p t ts out db a) = db
    rw [h0]
    exact ih db (fun b hb => h b (List.mem_cons_of_mem a hb))

theorem countKey_append (db : List TaskRow) (row : TaskRow) (k : String) :
    countKey (db ++ [row]) k
      = countKey db k + (if row.task_key = k then 1 else 0) := by
  unfold countKey
  rw [List.filter_append]
  simp only [List.length_append]
  congr 1
  split
  · next h => simp [List.filter, h]
  · next h => simp [List.filter, h]

theorem hasKey_false_countKey {db : List TaskRow} {k : String}
    (h : hasKey db k = false) : countKey db k = 0 := by
  unfold countKey
  unfold hasKey at h
  rw [List.length_eq_zero]
  rw [List.filter_eq_nil_iff]
  intro r hr
  have := List.any_eq_false.mp h r hr
  simpa using this

theorem hasKey_true_countKey {db : List TaskRow} {k : String}
    (h : hasKey db k = true) : 1 ≤ countKey db k := by
  unfold countKey
  unfold hasKey at h
  obtain ⟨r, hr, hrk⟩ := List.any_eq_true.mp h
  have : r ∈ db.filter (fun r => decide (r.task_key = k)) := List.mem_filter.mpr ⟨hr, hrk⟩
  have := List.length_pos.mpr (List.ne_nil_of_mem this)
  omega

theorem countKey_le_one_insert {db : List TaskRow} (r : PendingTask) {k : String}
    (h : countKey db k ≤ 1) : countKey (insertOrIgnoreTask db r) k ≤ 1 := by
  unfold insertOrIgnoreTask
  split
  · exact h
  · next hk =>
    split
    · exact h
    · rw [countKey_append]
      split
      · next heq =>
        have h0 : countKey db k = 0 := by
          apply hasKey_false_countKey
          rw [← heq]
          simpa using hk
        omega
      · omega

theorem countKey_le_one_step {p t ts : String} {out : TriageDict} {db : List TaskRow}
    {k : String} (a : ActionDict) (h : countKey db k ≤ 1) :
    countKey (reconcileStep p t ts out db a) k ≤ 1 := by
  unfold reconcileStep
  split
  · exact countKey_le_one_insert _ h
  · exact h

theorem countKey_le_one_fold {p t ts : String} {out : TriageDict} {k : String} :
    ∀ (as : List ActionDict) (db : List TaskRow), countKey db k ≤ 1 →
      countKey (as.foldl (reconcileStep p t ts out) db) k ≤ 1 := by
  intro as
  induction as with
  | nil => intro db h; exact h
  | cons a as ih => intro db h; exact ih _ (countKey_le_one_step a h)

/--
Claim C1: re-running `create_tasks_from_actions` with the identical
classification output for the same provider / thread is idempotent — the
second run leaves the task table exactly as the first left it; inserting a
`task_key` that is already present is a silent no-op returning the table
unchanged (never an error); and for every qualifying recommended action
whose key is not yet in the table (the output's priority value not being an
explicit `None`, which the `NOT NULL` column constraint would silently
drop), the runs leave exactly one row with that action's `task_key` — one,
not two.
-/
theorem claim_C1 (provider thread_id created_at : String) (out : TriageDict)
    (db : List TaskRow) :
    (create_tasks_from_actions
        (create_tasks_from_actions db provider thread_id created_at out)
        provider thread_id created_at out
      = create_tasks_from_actions db provider thread_id created_at out)
    ∧ (∀ (db' : List TaskRow) (r : PendingTask), hasKey db' r.task_key →
        insertOrIgnoreTask db' r = db')
    ∧ (∀ a ∈ actionsOf out, qualifies a → taskPriority out ≠ none →
        hasKey db (_task_key provider thread_id (actionTitle a) a.due_date) = false →
        countKey (create_tasks_from_actions db provider thread_id created_at out)
            (_task_key provider thread_id (actionTitle a) a.due_date) = 1
        ∧ countKey (create_tasks_from_actions
              (create_tasks_from_actions db provider thread_id created_at out)
              provider thread_id created_at out)
            (_task_key provider thread_id (actionTitle a) a.due_date) = 1) := by
  have idem : create_tasks_from_actions
      (create_tasks_from_actions db provider thread_id created_at out)
      provider thread_id created_at out
      = create_tasks_from_actions db provider thread_id created_at out := by
    simp only [create_tasks_eq_foldl]
    apply fold_noop
    intro a ha
    unfold reconcileStep
    split
    · next hq =>
      by_cases hpr : taskPriority out = none
      · exact insertOrIgnore_of_none hpr
      · apply insertOrIgnore_of_hasKey
        exact hasKey_fold_of_mem hpr _ db a ha hq
    · rfl
  refine ⟨idem, fun db' r h => insertOrIgnore_of_hasKey h, ?_⟩
  intro a ha hq hpr hfresh
  have h1 : countKey (create_tasks_from_actions db provider thread_id created_at out)
      (_task_key provider thread_id (actionTitle a) a.due_date) = 1 := by
    have hle : countKey (create_tasks_from_actions db provider thread_id created_at out)
        (_task_key provider thread_id (actionTitle a) a.due_date) ≤ 1 := by
      rw [create_tasks_eq_foldl]
      apply countKey_le_one_fold
      rw [hasKey_false_countKey hfresh]
      omega
    have hge : 1 ≤ countKey (create_tasks_from_actions db provider thread_id created_at out)
        (_task_key provider thread_id (actionTitle a) a.due_date) := by
      apply hasKey_true_countKey
      rw [create_tasks_eq_foldl]
      exact hasKey_fold_of_mem hpr _ db a ha hq
    omega
  exact ⟨h1, by rw [idem]; exact h1⟩

/-! ## `triage.normalize_output` -/

/-- `base.update(out or {})` for one key: the input value when the key is
present (possibly `None`), otherwise the default. -/
def updatedField (v : Option (Option α)) (dflt : α) : Option α :=
  match v with
  | some v' => v'
  | none => some dflt

/-- The `priority_map` alias table. -/
def priorityAliases (p : String) : Option String :=
  match p with
  | "medium" => some "normal"
  | "med" => some "normal"
  | "low" => some "ignore"
  | "none" => some "ignore"
  | "informational" => some "ignore"
  | _ => none

/-- The `domain_map` alias table. -/
def domainAliases (d : String) : Option String :=
  match d with
  | "receivables" => some "payment"
  | "invoice" => some "payment"
  | "billing" => some "payment"
  | "renewals" => some "expiry"
  | _ => none

/-- The `intent_map` alias table. -/
def intentAliases (i : String) : Option String :=
  match i with
  | "follow_up" => some "followup_needed"
  | "followup" => some "followup_needed"
  | "pay" => some "payment_commitment"
  | "payment" => some "payment_commitment"
  | _ => none

/-- One scalar-field normalization:
`x = (value or "").strip().lower(); aliases.get(x, x) or default`. -/
def normField (aliases : String → Option String) (dflt : String) (v : Option String) : String :=
  let x := normStr (match v with | none => "" | some s => s)
  let y := (aliases x).getD x
  if y = "" then dflt else y

/-- Python truthiness test `not base["recommended_actions"]`
(`None` and the empty list are falsy). -/
def actsFalsy : Option (List ActionDict) → Bool
  | none => true
  | some l => l.isEmpty

/-- The synthetic suppress action injected for `"ignore"` outputs. -/
def suppressAction : ActionDict :=
  ⟨some "suppress", some "Ignore low-impact email", some "No action required.",
   none, none⟩

/-- `triage.normalize_output`. -/
def normalize_output (out : TriageDict) : TriageDict :=
  let p := normField priorityAliases "normal" (updatedField out.priority "normal")
  let d := normField domainAliases "other" (updatedField out.domain "other")
  let i := normField intentAliases "other" (updatedField out.intent "other")
  let acts0 := updatedField out.recommended_actions []
  let acts := if p = "ignore" ∧ actsFalsy acts0 then some [suppressAction] else acts0
  { domain := some (some d), intent := some (some i), priority := some (some p),
    confidence := some (updatedField out.confidence (1/2 : Rat)),
    rationale := some (updatedField out.rationale ""),
    extractions := some (updatedField out.extractions []),
    recommended_actions := some acts }

/-- After one `normField` pass the result is a fixed point, provided every
alias output and the default are themselves normalized non-aliased
non-empty strings. -/
theorem normField_idem (aliases : String → Option String) (dflt : String)
    (hal : ∀ s t, aliases s = some t → normStr t = t ∧ aliases t = none ∧ t ≠ "")
    (hd : normStr dflt = dflt ∧ aliases dflt = none ∧ dflt ≠ "")
    (v : Option String) :
    normField aliases dflt (some (normField aliases dflt v)) = normField aliases dflt v := by
  unfold normField
  set x := normStr (match v with | none => "" | some s => s) with hx
  cases hca : aliases x with
  | some t =>
    obtain ⟨ht1, ht2, ht3⟩ := hal x t hca
    simp only [hca, Option.getD_some]
    rw [if_neg ht3]
    simp only [ht1, ht2, Option.getD_none]
    rw [if_neg ht3]
  | none =>
    simp only [hca, Option.getD_none]
    by_cases hxe : x = ""
    · rw [if_pos hxe]
      simp only [hd.1, hd.2.1, Option.getD_none]
      rw [if_neg hd.2.2]
    · rw [if_neg hxe]
      have hxx : normStr x = x := by
        rw [hx]
        exact normStr_idem _
      simp only [hxx, hca, Option.getD_none]
      rw [if_neg hxe]

theorem priorityAliases_good :
    ∀ s t, priorityAliases s = some t → normStr t = t ∧ priorityAliases t = none ∧ t ≠ "" := by
  intro s t h
  unfold priorityAliases at h
  split at h <;> simp_all <;> subst h <;> refine ⟨by decide, rfl, by decide⟩

theorem domainAliases_good :
    ∀ s t, domainAliases s = some t → normStr t = t ∧ domainAliases t = none ∧ t ≠ "" := by
  intro s t h
  unfold domainAliases at h
  split at h <;> simp_all <;> subst h <;> refine ⟨by decide, rfl, by decide⟩

theorem intentAliases_good :
    ∀ s t, intentAliases s = some t → normStr t = t ∧ intentAliases t = none ∧ t ≠ "" := by
  intro s t h
  unfold intentAliases at h
  split at h <;> simp_all <;> subst h <;> refine ⟨by decide, rfl, by decide⟩

/--
Claim C3: for every input dictionary, if the normalized output's priority
is `"ignore"` then its `recommended_actions` is a non-empty list — a
synthetic suppress action is injected whenever the list would otherwise be
empty (or the value `None`), so a normalized output is never "ignore with
no action stated".
-/
theorem claim_C3 (x : TriageDict)
    (h : (normalize_output x).priority = some (some "ignore")) :
    ∃ a as, (normalize_output x).recommended_actions = some (some (a :: as)) := by
  unfold normalize_output at *
  simp only at h ⊢
  have hp : normField priorityAliases "normal" (updatedField x.priority "normal") = "ignore" := by
    injection h with h1
    injection h1
  rw [hp]
  cases hfal : actsFalsy (updatedField x.recommended_actions []) with
  | true =>
    rw [if_pos ⟨rfl, rfl⟩]
    exact ⟨suppressAction, [], rfl⟩
  | false =>
    rw [if_neg (fun hc => absurd hc.2 (by simp))]
    cases hcase : updatedField x.recommended_actions [] with
    | none => rw [hcase] at hfal; simp [actsFalsy] at hfal
    | some l =>
      cases l with
      | nil => rw [hcase] at hfal; simp [actsFalsy] at hfal
      | cons a as => exact ⟨a, as, rfl⟩

/-- Witness for C3: an input with priority alias `"low"` (mapped to
`"ignore"`) and no actions gets the suppress action injected. -/
theorem claim_C3_witness :
    ∃ a as,
      (normalize_output
        { domain := none, intent := none, priority := some (some "low"),
          confidence := none, rationale := none, extractions := none,
          recommended_actions := none }).recommended_actions = some (some (a :: as)) :=
  claim_C3 _ (by decide)

/-- The record shape every `normalize_output` result has. -/
def normalizedMk (d i p : String) (c : Option Rat) (r : Option String)
    (e : Option (List ExtractionDict)) (a : Option (List ActionDict)) : TriageDict :=
  { domain := some (some d), intent := some (some i), priority := some (some p),
    confidence := some c, rationale := some r, extractions := some e,
    recommended_actions := some a }

theorem normalize_output_eq (x : TriageDict) :
    normalize_output x = normalizedMk
      (normField domainAliases "other" (updatedField x.domain "other"))
      (normField intentAliases "other" (updatedField x.intent "other"))
      (normField priorityAliases "normal" (updatedField x.priority "normal"))
      (updatedField x.confidence (1/2 : Rat))
      (updatedField x.rationale "")
      (updatedField x.extractions [])
      (if normField priorityAliases "normal" (updatedField x.priority "normal") = "ignore"
          ∧ actsFalsy (updatedField x.recommended_actions [])
        then some [suppressAction]
        else updatedField x.recommended_actions []) := rfl

theorem normalize_normalizedMk (d i p : String) (c : Option Rat) (r : Option String)
    (e : Option (List ExtractionDict)) (a : Option (List ActionDict))
    (hp : normField priorityAliases "normal" (some p) = p)
    (hd : normField domainAliases "other" (some d) = d)
    (hi : normField intentAliases "other" (some i) = i)
    (hna : p = "ignore" → actsFalsy a = false) :
    normalize_output (normalizedMk d i p c r e a) = normalizedMk d i p c r e a := by
  show normalizedMk
      (normField domainAliases "other" (some d))
      (normField intentAliases "other" (some i))
      (normField priorityAliases "normal" (some p))
      c r e
      (if normField priorityAliases "normal" (some p) = "ignore" ∧ actsFalsy a
        then some [suppressAction] else a)
    = normalizedMk d i p c r e a
  rw [hp, hd, hi]
  rw [if_neg (fun hc => by rw [hna hc.1] at hc; exact absurd hc.2 (by simp))]

/--
Claim C4: `normalize_output` is idempotent — applying it to an
already-normalized output returns that output unchanged.
-/
theorem claim_C4 (x : TriageDict) :
    normalize_output (normalize_output x) = normalize_output x := by
  rw [normalize_output_eq x]
  apply normalize_normalizedMk
  · exact normField_idem priorityAliases "normal" priorityAliases_good
      ⟨by decide, rfl, by decide⟩ _
  · exact normField_idem domainAliases "other" domainAliases_good
      ⟨by decide, rfl, by decide⟩ _
  · exact normField_idem intentAliases "other" intentAliases_good
      ⟨by decide, rfl, by decide⟩ _
  · intro hig
    cases hfal : actsFalsy (updatedField x.recommended_actions []) with
    | true =>
      rw [if_pos ⟨hig, rfl⟩]
      simp [actsFalsy]
    | false =>
      rw [if_neg (fun hc => absurd hc.2 (by simp))]
      exact hfal

/-! ## `triage.simulate_llm` -/

/-- A thread message as consumed by the triage engine and the follow-up
detector.  Each field models `m.get(key)`: `none` covers both an absent
key and a present `None` (the code treats the two alike via `or`
defaults). -/
structure Msg where
  sender : Option String
  date : Option String
  text : Option String
deriving DecidableEq, Repr

/-- `(" ".join(texts) + " " + thread_subject).lower()`. -/
def simText (thread_subject : String) (messages : List Msg) : String :=
  pyLower (String.intercalate " " (messages.map (fun m => m.text.getD ""))
    ++ " " ++ thread_subject)

/-- `has(*words)`: any of the words occurs in the text. -/
def hasKw (ws : List String) (t : String) : Bool :=
  ws.any (fun x => substr x t)

def payKeywords : List String := ["invoice", "remittance", "payment", "paid", "wire", "ach"]

def expiryKeywords : List String := ["expires", "expiry", "renewal", "expiring"]

def auditKeywords : List String := ["soc", "audit", "evidence", "pbc", "controls", "request"]

def noiseKeywords : List String := ["fyi", "newsletter", "promo", "update", "thank you"]

def payAction : ActionDict :=
  ⟨some "create_task", some "Payment follow-up / confirm remittance",
   some "Check promised payment status.", none, some "7d"⟩

def payExtraction : ExtractionDict :=
  ⟨"payment", "Payment-related conversation detected.", none, none, none, none, none,
   (65/100 : Rat)⟩

def expiryAction : ActionDict :=
  ⟨some "create_task", some "Track upcoming expiry / renewal",
   some "Confirm expiry date and renewal owner.", none, some "72h"⟩

def expiryExtraction : ExtractionDict :=
  ⟨"expiry", "Expiry/renewal signal detected.", none, none, none, none, none,
   (65/100 : Rat)⟩

def auditAction : ActionDict :=
  ⟨some "create_task", some "Audit request: respond / provide evidence",
   some "Identify requested items and due date.", none, some "7d"⟩

def auditExtraction : ExtractionDict :=
  ⟨"document_request", "Audit/evidence request detected.", none, none, none, none, none,
   (62/100 : Rat)⟩

def reviewAction : ActionDict :=
  ⟨some "review_needed", some "Review thread", some "Unclear intent; needs quick scan.",
   none, some "7d"⟩

/-- The plain dict `simulate_llm` returns (all keys present, no `None`
scalars). -/
structure SimOutput where
  domain : String
  intent : String
  priority : String
  confidence : Rat
  rationale : String
  extractions : List ExtractionDict
  recommended_actions : List ActionDict
deriving DecidableEq, Repr

/-- `triage.simulate_llm`: sequential keyword branches, each unconditionally
overwriting the scalar fields and appending its action/extraction. -/
def simulate_llm (thread_subject : String) (messages : List Msg) : SimOutput :=
  let text := simText thread_subject messages
  let pay := hasKw payKeywords text
  let dip1 := if pay then ("payment", "payment_commitment", "high")
              else ("other", "other", "normal")
  let actions1 : List ActionDict := if pay then [payAction] else []
  let extr1 : List ExtractionDict := if pay then [payExtraction] else []
  let expiry := hasKw expiryKeywords text
  let dip2 := if expiry then ("expiry", "deadline", "urgent") else dip1
  let actions2 := if expiry then actions1 ++ [expiryAction] else actions1
  let extr2 := if expiry then extr1 ++ [expiryExtraction] else extr1
  let audit := hasKw auditKeywords text
  let dip3 := if audit then ("audit", "request", "high") else dip2
  let actions3 := if audit then actions2 ++ [auditAction] else actions2
  let extr3 := if audit then extr2 ++ [auditExtraction] else extr2
  let noise := actions3.isEmpty && hasKw noiseKeywords text
  let dip4 := if noise then ("noise", "fyi", "ignore") else dip3
  let actions4 := if noise then actions3 ++ [suppressAction] else actions3
  let rationale4 := if noise then "Simulated: informational/noise." else "Simulated triage."
  let ambiguous := actions4.isEmpty
  let actions5 := if ambiguous then actions4 ++ [reviewAction] else actions4
  let rationale5 := if ambiguous then "Simulated: ambiguous thread." else rationale4
  ⟨dip4.1, dip4.2.1, dip4.2.2,
   if dip4.1 ≠ "noise" then (62/100 : Rat) else (75/100 : Rat),
   rationale5, extr3, actions5⟩

/-- The three keyword families, in the fixed order the code tests them. -/
inductive Fam
  | payment
  | expiry
  | audit
deriving DecidableEq, Repr

def famAction : Fam → ActionDict
  | .payment => payAction
  | .expiry => expiryAction
  | .audit => auditAction

def famExtraction : Fam → ExtractionDict
  | .payment => payExtraction
  | .expiry => expiryExtraction
  | .audit => auditExtraction

def famScalars : Fam → String × String × String
  | .payment => ("payment", "payment_commitment", "high")
  | .expiry => ("expiry", "deadline", "urgent")
  | .audit => ("audit", "request", "high")

/-- The families whose keywords match a given text, in test order. -/
def famsOf (t : String) : List Fam :=
  (if hasKw payKeywords t then [Fam.payment] else []) ++
  (if hasKw expiryKeywords t then [Fam.expiry] else []) ++
  (if hasKw auditKeywords t then [Fam.audit] else [])

/--
Claim C5: in simulated mode, whenever several keyword families (payment /
expiry / audit) match the concatenated lower-cased text, `simulate_llm`
appends exactly one action and one extraction per matching family,
independently and in test order, and the scalar fields domain / intent /
priority take the values of the LAST matching family in the fixed order
payment, expiry, audit.
-/
theorem claim_C5 (subject : String) (messages : List Msg)
    (h2 : 2 ≤ (famsOf (simText subject messages)).length) :
    (simulate_llm subject messages).recommended_actions
        = (famsOf (simText subject messages)).map famAction
    ∧ (simulate_llm subject messages).extractions
        = (famsOf (simText subject messages)).map famExtraction
    ∧ ∀ f, (famsOf (simText subject messages)).getLast? = some f →
        ((simulate_llm subject messages).domain,
         (simulate_llm subject messages).intent,
         (simulate_llm subject messages).priority) = famScalars f := by
  cases hp : hasKw payKeywords (simText subject messages) <;>
    cases he : hasKw expiryKeywords (simText subject messages) <;>
      cases ha : hasKw auditKeywords (simText subject messages) <;>
        first
          | (exfalso; revert h2; simp [famsOf, hp, he, ha]; done)
          | exact ⟨by simp [simulate_llm, famsOf, hp, he, ha, famAction],
              by simp [simulate_llm, famsOf, hp, he, ha, famExtraction],
              fun f hf => by
                simp [famsOf, hp, he, ha] at hf
                subst hf
                simp [simulate_llm, hp, he, ha, famScalars]⟩

/-- Witness for C5: subject matching both the payment and expiry families
(audit not matching); the expiry family, last in test order, supplies the
scalar fields. -/
theorem claim_C5_witness :
    2 ≤ (famsOf (simText "Invoice payment expires soon" [])).length ∧
    (simulate_llm "Invoice payment expires soon" []).recommended_actions
      = (famsOf (simText "Invoice payment expires soon" [])).map famAction ∧
    (simulate_llm "Invoice payment expires soon" []).extractions
      = (famsOf (simText "Invoice payment expires soon" [])).map famExtraction ∧
    ((simulate_llm "Invoice payment expires soon" []).domain,
     (simulate_llm "Invoice payment expires soon" []).intent,
     (simulate_llm "Invoice payment expires soon" []).priority) = famScalars Fam.expiry :=
  ⟨by decide,
   (claim_C5 "Invoice payment expires soon" [] (by decide)).1,
   (claim_C5 "Invoice payment expires soon" [] (by decide)).2.1,
   (claim_C5 "Invoice payment expires soon" [] (by decide)).2.2 Fam.expiry (by decide)⟩

/-! ## `digest` — date parsing and bucket computation

`datetime.date.today()` is ambient state; it is passed explicitly as a
`today` parameter. -/

structure PyDate where
  year : Nat
  month : Nat
  day : Nat
deriving DecidableEq, Repr

def isLeap (y : Nat) : Bool :=
  y % 4 = 0 && (y % 100 ≠ 0 || y % 400 = 0)

def daysInMonth (y m : Nat) : Nat :=
  if m = 2 then (if isLeap y then 29 else 28)
  else if m = 4 || m = 6 || m = 9 || m = 11 then 30
  else 31

/-- Model of `datetime.date.fromisoformat` on its documented
`YYYY-MM-DD` input (anything else raises, i.e. parses to `none`). -/
def _parse_date (s : String) : Option PyDate :=
  match s.data with
  | [a, b, c, d, '-', e, f, '-', g, h] =>
    if a.isDigit && b.isDigit && c.isDigit && d.isDigit &&
       e.isDigit && f.isDigit && g.isDigit && h.isDigit then
      let y := ((a.toNat - 48) * 10 + (b.toNat - 48)) * 100 +
               (c.toNat - 48) * 10 + (d.toNat - 48)
      let m := (e.toNat - 48) * 10 + (f.toNat - 48)
      let dy := (g.toNat - 48) * 10 + (h.toNat - 48)
      if 1 ≤ y ∧ 1 ≤ m ∧ m ≤ 12 ∧ 1 ≤ dy ∧ dy ≤ daysInMonth y m then
        some ⟨y, m, dy⟩
      else none
    else none
  | _ => none

/-- Days in the months of year `y` strictly before month `m`. -/
def daysBeforeMonth (y m : Nat) : Nat :=
  ((List.range (m - 1)).map (fun i => daysInMonth y (i + 1))).sum

/-- Proleptic-Gregorian ordinal (`datetime.date.toordinal`). -/
def toOrdinal (d : PyDate) : Nat :=
  365 * (d.year - 1) + (d.year - 1) / 4 - (d.year - 1) / 100 + (d.year - 1) / 400 +
    daysBeforeMonth d.year d.month + d.day

/-- `(d - dt.date.today()).days`. -/
def _days_until (today d : PyDate) : Int :=
  (toOrdinal d : Int) - (toOrdinal today : Int)

/-- A row of `fetch_open_tasks`: task columns joined with the owning
thread's subject and `digest_bucket` (both `NULL` when `LEFT JOIN` finds no
thread). -/
structure TaskView where
  id : Nat
  provider : String
  thread_id : String
  created_at : String
  priority : Option String
  title : String
  due_date : Option String
  notes : Option String
  thread_subject : Option String
  bucket : Option String
deriving DecidableEq, Repr

/-- `digest._compute_bucket`. -/
def _compute_bucket (today : PyDate) (t : TaskView) : String :=
  let due := _parse_date (t.due_date.getD "")
  if t.priority = some "urgent" then "urgent"
  else if (match due with
           | some d => decide (_days_until today d ≤ 3)
           | none => false) then "urgent"
  else if substr "review" (pyLower t.title) ||
          substr "unclear" (pyLower (t.notes.getD "")) then "review"
  else
    let b := pyLower (match t.bucket with
                      | some s => if s = "" then "other" else s
                      | none => "other")
    if b = "expiry" || b = "audit" || b = "followup" || b = "payment" ||
       b = "other" || b = "noise" then b
    else "other"

/--
Claim C6: bucket assignment gives priority to urgency — for every task
whose `due_date` parses and lies at most 3 days from `today`,
`_compute_bucket` returns `"urgent"` regardless of the task's title, notes
and thread `digest_bucket`.
-/
theorem claim_C6 (today : PyDate) (t : TaskView) (d : PyDate)
    (hparse : _parse_date (t.due_date.getD "") = some d)
    (hdays : _days_until today d ≤ 3) :
    _compute_bucket today t = "urgent" := by
  unfold _compute_bucket
  simp only [hparse]
  by_cases hp : t.priority = some "urgent"
  · rw [if_pos hp]
  · rw [if_neg hp, if_pos (by simp [hdays])]

/-- Witness for C6: a task with priority `"normal"`, due two days from
`today`, a non-review title and a noise thread bucket still lands in
`"urgent"`. -/
theorem claim_C6_witness :
    _parse_date ((some "2026-10-14" : Option String).getD "") = some ⟨2026, 10, 14⟩ ∧
    _days_until ⟨2026, 10, 12⟩ ⟨2026, 10, 14⟩ ≤ 3 ∧
    _compute_bucket ⟨2026, 10, 12⟩
      ⟨7, "gmail", "th1", "2026-10-01T00:00:00Z", some "normal", "Pay supplier",
       some "2026-10-14", none, some "Invoice", some "noise"⟩ = "urgent" :=
  ⟨by decide, by decide,
   claim_C6 ⟨2026, 10, 12⟩
     ⟨7, "gmail", "th1", "2026-10-01T00:00:00Z", some "normal", "Pay supplier",
      some "2026-10-14", none, some "Invoice", some "noise"⟩
     ⟨2026, 10, 14⟩ (by decide) (by decide)⟩

/-! ## `digest.render_digest` — grouping into buckets

Only the grouping/count part of `render_digest` is modelled (the HTML
around it renders one `<details>` section and one count chip per key of
`buckets_order`, each built solely from `groups[k]`). -/

def bucketsOrder : List String :=
  ["urgent", "expiry", "audit", "followup", "payment", "review", "other"]

/-- The grouping loop of `render_digest`: tasks whose computed bucket is a
key of `groups` are appended there; all others land in `extras`. -/
def renderFold (today : PyDate) (tasks : List TaskView) :
    List (String × List TaskView) × List TaskView :=
  tasks.foldl
    (fun acc t =>
      let k := _compute_bucket today t
      if bucketsOrder.contains k then
        (acc.1.map (fun p => if p.1 = k then (p.1, p.2 ++ [t]) else p), acc.2)
      else (acc.1, acc.2 ++ [t]))
    (bucketsOrder.map (fun k => (k, [])), [])

/-- `groups[k]` after the grouping loop. -/
def renderGroups (today : PyDate) (tasks : List TaskView) (k : String) : List TaskView :=
  (((renderFold today tasks).1.find? (fun p => p.1 = k)).map Prod.snd).getD []

/-- The `extras` list after the grouping loop. -/
def renderExtras (today : PyDate) (tasks : List TaskView) : List TaskView :=
  (renderFold today tasks).2

/-- One step of the grouping loop. -/
def renderStep (today : PyDate) (acc : List (String × List TaskView) × List TaskView)
    (t : TaskView) : List (String × List TaskView) × List TaskView :=
  let k := _compute_bucket today t
  if bucketsOrder.contains k then
    (acc.1.map (fun p => if p.1 = k then (p.1, p.2 ++ [t]) else p), acc.2)
  else (acc.1, acc.2 ++ [t])

theorem renderFold_eq (today : PyDate) (tasks : List TaskView) :
    renderFold today tasks
      = tasks.foldl (renderStep today) (bucketsOrder.map (fun k => (k, [])), []) := rfl

/-- The grouping predicate a task must satisfy to land in entry `p`. -/
def inBucket (today : PyDate) (k : String) (t : TaskView) : Bool :=
  (_compute_bucket today t = k) && bucketsOrder.contains (_compute_bucket today t)

theorem renderFold_go (today : PyDate) :
    ∀ (tasks : List TaskView) (A : List (String × List TaskView)) (E : List TaskView),
      tasks.foldl (renderStep today) (A, E)
        = (A.map (fun p => (p.1, p.2 ++ tasks.filter (inBucket today p.1))),
           E ++ tasks.filter (fun t => !(bucketsOrder.contains (_compute_bucket today t)))) := by
  intro tasks
  induction tasks with
  | nil =>
    intro A E
    simp
  | cons t ts ih =>
    intro A E
    show List.foldl (renderStep today) (renderStep today (A, E) t) ts = _
    by_cases hc : bucketsOrder.contains (_compute_bucket today t)
    · have hcm : _compute_bucket today t ∈ bucketsOrder := by simpa using hc
      rw [show renderStep today (A, E) t
            = (A.map (fun p => if p.1 = _compute_bucket today t
                then (p.1, p.2 ++ [t]) else p), E) from by
          unfold renderStep
          rw [if_pos hc]]
      rw [ih, List.map_map]
      refine congrArg₂ Prod.mk ?_ ?_
      · apply List.map_congr_left
        intro p _
        by_cases hpk : p.1 = _compute_bucket today t
        · have ht : inBucket today p.1 t = true := by
            unfold inBucket
            rw [hpk]
            simp [hcm]
          simp only [Function.comp, if_pos hpk, List.filter_cons, ht, if_true,
            List.append_assoc, List.singleton_append]
        · have ht : inBucket today p.1 t = false := by
            unfold inBucket
            simp only [Bool.and_eq_false_iff]
            left
            simp only [decide_eq_false_iff_not]
            exact fun heq => absurd heq.symm hpk
          simp only [Function.comp, if_neg hpk, List.filter_cons, ht]
          simp
      · simp [List.filter_cons, hc, hcm]
    · have hcm : _compute_bucket today t ∉ bucketsOrder := by simpa using hc
      rw [show renderStep today (A, E) t = (A, E ++ [t]) from by
          unfold renderStep
          rw [if_neg hc]]
      rw [ih]
      refine congrArg₂ Prod.mk ?_ ?_
      · apply List.map_congr_left
        intro p _
        have ht : inBucket today p.1 t = false := by
          unfold inBucket
          simp only [Bool.and_eq_false_iff]
          right
          simpa using hc
        simp [List.filter_cons, ht]
      · simp only [List.filter_cons]
        rw [if_pos (by simpa using hcm)]
        simp [List.append_assoc]

theorem find?_map_key (f : String → List TaskView) (l : List String) (k : String) :
    ((l.map (fun b => (b, f b))).find? (fun p => p.1 = k))
      = if k ∈ l then some (k, f k) else none := by
  induction l with
  | nil => simp
  | cons b bs ih =>
    by_cases hbk : b = k
    · subst hbk
      simp
    · rw [List.map_cons, List.find?_cons_of_neg _ (by simpa using hbk), ih]
      by_cases hk : k ∈ bs
      · rw [if_pos hk, if_pos (List.mem_cons_of_mem b hk)]
      · rw [if_neg hk, if_neg (by
          intro hmem
          rcases List.mem_cons.mp hmem with h | h
          · exact hbk h.symm
          · exact hk h)]

theorem renderGroups_eq (today : PyDate) (tasks : List TaskView) (k : String) :
    renderGroups today tasks k
      = if k ∈ bucketsOrder then
          tasks.filter (fun t => _compute_bucket today t = k)
        else [] := by
  unfold renderGroups
  rw [renderFold_eq, renderFold_go, List.map_map]
  have hcomp :
      ((fun p => (p.1, p.2 ++ tasks.filter (inBucket today p.1)))
          ∘ (fun b => (b, ([] : List TaskView))))
        = fun b => (b, tasks.filter (inBucket today b)) := by
    funext b
    simp
  rw [show (bucketsOrder.map
        ((fun p => (p.1, p.2 ++ tasks.filter (inBucket today p.1)))
          ∘ (fun b => (b, ([] : List TaskView)))))
      = bucketsOrder.map (fun b => (b, tasks.filter (inBucket today b))) from by
    rw [hcomp]]
  rw [find?_map_key]
  by_cases hk : k ∈ bucketsOrder
  · rw [if_pos hk, if_pos hk]
    show tasks.filter (inBucket today k) = tasks.filter (fun t => _compute_bucket today t = k)
    apply List.filter_congr
    intro t _
    unfold inBucket
    by_cases hb : _compute_bucket today t = k
    · rw [hb]
      simp [hk]
    · simp [hb]
  · rw [if_neg hk, if_neg hk]
    rfl

theorem renderExtras_eq (today : PyDate) (tasks : List TaskView) :
    renderExtras today tasks
      = tasks.filter (fun t => !(bucketsOrder.contains (_compute_bucket today t))) := by
  unfold renderExtras
  rw [renderFold_eq, renderFold_go]
  rfl

/--
Claim C10: a task whose computed bucket is `"noise"` is placed in no bucket
section of the digest and counted in no bucket: `"noise"` is not a key of
the rendered `buckets_order` groups, so the task goes to the unused
`extras` list and is silently absent from every group (and hence from
every rendered section and count, which are built from the groups alone).
-/
theorem claim_C10 (today : PyDate) (tasks : List TaskView) (t : TaskView)
    (hmem : t ∈ tasks) (hnoise : _compute_bucket today t = "noise") :
    (∀ k ∈ bucketsOrder, t ∉ renderGroups today tasks k)
    ∧ t ∈ renderExtras today tasks := by
  constructor
  · intro k hk
    rw [renderGroups_eq, if_pos hk]
    intro hmem'
    have hcond := (List.mem_filter.mp hmem').2
    simp only [decide_eq_true_eq] at hcond
    rw [hnoise] at hcond
    subst hcond
    exact absurd hk (by decide)
  · rw [renderExtras_eq]
    apply List.mem_filter.mpr
    refine ⟨hmem, ?_⟩
    rw [hnoise]
    decide

/-- A noise-bucketed open task used by the C10 witness. -/
def noiseTask : TaskView :=
  ⟨5, "gmail", "th2", "2026-10-01T00:00:00Z", some "normal", "Weekly digest stats",
   none, none, some "Newsletter", some "noise"⟩

/-- Witness for C10 at concrete inputs. -/
theorem claim_C10_witness :
    (∀ k ∈ bucketsOrder, noiseTask ∉ renderGroups ⟨2026, 10, 12⟩ [noiseTask] k)
    ∧ noiseTask ∈ renderExtras ⟨2026, 10, 12⟩ [noiseTask] :=
  claim_C10 ⟨2026, 10, 12⟩ [noiseTask] noiseTask (List.mem_singleton.mpr rfl) (by decide)

/-! ## `store.fetch_open_tasks` and the within-bucket ordering -/

structure ThreadRow where
  provider : String
  thread_id : String
  subject : Option String
  last_seen_at : Option String
  last_analyzed_at : Option String
  digest_bucket : Option String
  last_seen_history_id : Option String
  last_analyzed_history_id : Option String
deriving DecidableEq, Repr

/-- The `LEFT JOIN threads` lookup plus column projection of
`fetch_open_tasks` for one task row. -/
def taskViewOf (threads : List ThreadRow) (t : TaskRow) : TaskView :=
  let th := threads.find? (fun th => th.provider = t.provider && th.thread_id = t.thread_id)
  ⟨t.id, t.provider, t.thread_id, t.created_at, t.priority, t.title, t.due_date, t.notes,
   th.bind (fun r => r.subject), th.bind (fun r => r.digest_bucket)⟩

/-- `CASE priority WHEN 'urgent' THEN 0 WHEN 'high' THEN 1 WHEN 'normal'
THEN 2 ELSE 3 END` (a `NULL` priority matches no `WHEN`). -/
def priorityRank (p : Option String) : Nat :=
  match p with
  | some "urgent" => 0
  | some "high" => 1
  | some "normal" => 2
  | _ => 3

/-- `COALESCE(due_date,'9999-12-31')`, compared as text. -/
def dueKey (d : Option String) : String :=
  d.getD "9999-12-31"

/-- Lexicographic comparison of character lists by code point, modelling
SQLite's BINARY collation on TEXT (bytewise UTF-8 order, which agrees with
code-point order for valid UTF-8). -/
def charListLe : List Char → List Char → Bool
  | [], _ => true
  | _ :: _, [] => false
  | c :: cs, d :: ds =>
    if c.toNat = d.toNat then charListLe cs ds else decide (c.toNat < d.toNat)

/-- SQLite TEXT `<=` under BINARY collation. -/
def strLe (a b : String) : Bool :=
  charListLe a.data b.data

theorem charListLe_total : ∀ a b : List Char, charListLe a b || charListLe b a
  | [], b => by cases b <;> simp [charListLe]
  | _ :: _, [] => by simp [charListLe]
  | c :: cs, d :: ds => by
    by_cases h : c.toNat = d.toNat
    · have := charListLe_total cs ds
      simp [charListLe, h, this]
    · have h' : ¬ d.toNat = c.toNat := by omega
      simp only [charListLe, if_neg h, if_neg h']
      rcases Nat.lt_or_ge c.toNat d.toNat with hlt | hge
      · simp [hlt]
      · have hd : d.toNat < c.toNat := by omega
        simp [hd]

theorem charListLe_trans : ∀ a b c : List Char,
    charListLe a b → charListLe b c → charListLe a c
  | [], _, c, _, _ => by cases c <;> simp [charListLe]
  | _ :: _, [], _, hab, _ => by simp [charListLe] at hab
  | _ :: _, _ :: _, [], _, hbc => by simp [charListLe] at hbc
  | a :: as, b :: bs, c :: cs, hab, hbc => by
    simp only [charListLe] at hab hbc ⊢
    by_cases h1 : a.toNat = b.toNat <;> by_cases h2 : b.toNat = c.toNat
    · rw [if_pos h1] at hab
      rw [if_pos h2] at hbc
      rw [if_pos (h1.trans h2)]
      exact charListLe_trans as bs cs hab hbc
    · rw [if_neg h2] at hbc
      rw [if_neg (fun hac => h2 (h1.symm.trans hac)), decide_eq_true_eq] at *
      omega
    · rw [if_neg h1, decide_eq_true_eq] at hab
      rw [if_neg (fun hac => h1 (hac.trans h2.symm)), decide_eq_true_eq]
      omega
    · rw [if_neg h1, decide_eq_true_eq] at hab
      rw [if_neg h2, decide_eq_true_eq] at hbc
      rw [if_neg (by omega), decide_eq_true_eq]
      omega

theorem strLe_total (a b : String) : strLe a b || strLe b a := charListLe_total _ _

theorem strLe_trans {a b c : String} (h1 : strLe a b) (h2 : strLe b c) : strLe a c :=
  charListLe_trans _ _ _ h1 h2

/-- The `ORDER BY` key comparison of `fetch_open_tasks`. -/
def sqlLe (a b : TaskView) : Bool :=
  priorityRank a.priority < priorityRank b.priority ||
    (priorityRank a.priority = priorityRank b.priority &&
      strLe (dueKey a.due_date) (dueKey b.due_date))

/-- `store.fetch_open_tasks`: open tasks joined with their thread, ordered
by priority rank then coalesced due date (SQLite returns the rows sorted
by that key; a stable structural sort realizes the `ORDER BY`). -/
def fetch_open_tasks (tasks : List TaskRow) (threads : List ThreadRow) : List TaskView :=
  List.insertionSort (fun a b => sqlLe a b = true)
    ((tasks.filter (fun t => t.status = "open")).map (taskViewOf threads))

theorem sqlLe_trans (a b c : TaskView) (hab : sqlLe a b) (hbc : sqlLe b c) : sqlLe a c := by
  simp only [sqlLe, Bool.or_eq_true, Bool.and_eq_true, decide_eq_true_eq] at *
  rcases hab with h1 | ⟨h1, h2⟩ <;> rcases hbc with h3 | ⟨h3, h4⟩
  · left; omega
  · left; omega
  · left; omega
  · right; exact ⟨by omega, strLe_trans h2 h4⟩

theorem sqlLe_total (a b : TaskView) : sqlLe a b || sqlLe b a := by
  simp only [sqlLe, Bool.or_eq_true, Bool.and_eq_true, decide_eq_true_eq]
  rcases Nat.lt_trichotomy (priorityRank a.priority) (priorityRank b.priority) with h | h | h
  · left; left; exact h
  · have := strLe_total (dueKey a.due_date) (dueKey b.due_date)
    rcases Bool.or_eq_true_iff.mp this with hd | hd
    · left; right; exact ⟨h, hd⟩
    · right; right; exact ⟨h.symm, hd⟩
  · right; left; exact h

/-- The spec's within-bucket ordering: priority rank with `ignore = 3` and
any unknown priority `9`, then due date with missing due last. -/
def specPriorityRank (p : Option String) : Nat :=
  match p with
  | some "urgent" => 0
  | some "high" => 1
  | some "normal" => 2
  | some "ignore" => 3
  | _ => 9

/--
Claim C7 counterexample: with an `"ignore"`-priority task due 2025-01-02
and an unknown-priority (`"backlog"`) task due 2025-01-01, both open and
both landing in the `"urgent"` bucket, the rendered bucket list is NOT
sorted by the claimed key (ignore = 3, unknown = 9, then due date): the
code's `ORDER BY` gives both priorities rank 3 (`ELSE 3`), so the
unknown-priority task sorts first by due date, ahead of the `"ignore"`
task the claim would place before it.
-/
theorem claim_C7_counterexample :
    ¬ List.Pairwise
        (fun a b => specPriorityRank a.priority < specPriorityRank b.priority
          ∨ (specPriorityRank a.priority = specPriorityRank b.priority
              ∧ strLe (dueKey a.due_date) (dueKey b.due_date) = true))
        (renderGroups ⟨2030, 1, 1⟩
          (fetch_open_tasks
            [⟨1, "gmail", "t1", "2025-01-01T00:00:00Z", "open", some "ignore",
              "Pay supplier", some "2025-01-02", none, "k1"⟩,
             ⟨2, "gmail", "t2", "2025-01-01T00:00:00Z", "open", some "backlog",
              "Send report", some "2025-01-01", none, "k2"⟩]
            [])
          "urgent") := by
  decide

/--
Claim C7 (amended): within each bucket of the digest grouping, tasks
appear sorted by the `fetch_open_tasks` key — priority rank with
urgent = 0, high = 1, normal = 2 and everything else (both `"ignore"` and
unknown priorities, via the SQL `ELSE` branch) = 3, ascending, then
due date ascending with a missing due date treated as `"9999-12-31"` — as
established by the SQL `ORDER BY` and preserved by the per-bucket
grouping of `render_digest`.
-/
theorem claim_C7 (tasks : List TaskRow) (threads : List ThreadRow) (today : PyDate)
    (k : String) :
    List.Pairwise
      (fun a b => priorityRank a.priority < priorityRank b.priority
        ∨ (priorityRank a.priority = priorityRank b.priority
            ∧ strLe (dueKey a.due_date) (dueKey b.due_date) = true))
      (renderGroups today (fetch_open_tasks tasks threads) k) := by
  rw [renderGroups_eq]
  haveI htr : IsTrans TaskView (fun a b => sqlLe a b = true) := ⟨sqlLe_trans⟩
  haveI hto : IsTotal TaskView (fun a b => sqlLe a b = true) := by
    constructor
    intro a b
    rcases Bool.or_eq_true_iff.mp (sqlLe_total a b) with h | h
    · exact Or.inl h
    · exact Or.inr h
  have hsorted : List.Pairwise (fun a b => sqlLe a b = true)
      (fetch_open_tasks tasks threads) :=
    List.sorted_insertionSort (fun a b => sqlLe a b = true) _
  have himp : ∀ a b : TaskView, sqlLe a b = true →
      (priorityRank a.priority < priorityRank b.priority
        ∨ (priorityRank a.priority = priorityRank b.priority
            ∧ strLe (dueKey a.due_date) (dueKey b.due_date) = true)) := by
    intro a b h
    simpa [sqlLe, Bool.or_eq_true, Bool.and_eq_true, decide_eq_true_eq] using h
  split
  · exact ((hsorted.sublist (List.filter_sublist _)).imp (fun h => himp _ _ h))
  · exact List.Pairwise.nil

/-! ## `app.waiting_on_reply`

Timestamps are modelled as `Int` seconds.  The Python stdlib parser
`datetime.fromisoformat` is an external collaborator and is passed in as a
function `fiso : String → Option Int` (`none` = raises); `datetime.now()`
is the explicit parameter `now`. -/

/-- `s.endswith(suffix)` on the underlying characters. -/
def pyEndsWith (s suffix : String) : Bool :=
  suffix.data.isSuffixOf s.data

/-- `s[:-1]`: drop the final character. -/
def pyDropLast (s : String) : String :=
  ⟨s.data.dropLast⟩

/-- `app._parse_iso_dt`: empty string parses to `None`; a trailing `Z` is
replaced by `+00:00` before calling the stdlib parser. -/
def _parse_iso_dt (fiso : String → Option Int) (s : String) : Option Int :=
  if s = "" then none
  else fiso (if pyEndsWith s "Z" then pyDropLast s ++ "+00:00" else s)

/-- `datetime.min` (0001-01-01) as a timestamp: the sort key fallback for
messages whose date failed to parse. -/
def dtMin : Int := -62135596800

/-- `my_email in frm` on the lower-cased from-header. -/
def isMe (me : String) (m : Msg) : Bool :=
  substr me (pyLower (m.sender.getD ""))

/-- `(my_email or "").lower().strip()`. -/
def normEmail (my_email : String) : String :=
  pyStrip (pyLower my_email)

/-- The loop body tracking `(last_out, last_in)`. -/
def scanStep (me : String) (acc : Option Int × Option Int) (dm : Option Int × Msg) :
    Option Int × Option Int :=
  match dm.1 with
  | none => acc
  | some d => if isMe me dm.2 then (some d, acc.2) else (acc.1, some d)

/-- `app.waiting_on_reply`. -/
def waiting_on_reply (fiso : String → Option Int) (now : Int) (messages : List Msg)
    (my_email : String) (stale_days : Int) : Bool × Option Int :=
  let me := normEmail my_email
  if me = "" then (false, none)
  else
    let items := messages.map (fun m => (_parse_iso_dt fiso (m.date.getD ""), m))
    let sorted := List.insertionSort
      (fun a b : Option Int × Msg => a.1.getD dtMin ≤ b.1.getD dtMin) items
    let scan := sorted.foldl (scanStep me) (none, none)
    match scan.1 with
    | none => (false, none)
    | some lo =>
      if (match scan.2 with
          | some li => decide (lo < li)
          | none => false) then (false, some lo)
      else (decide (stale_days ≤ (now - lo).fdiv 86400), some lo)

/-- Timestamp contributed by one scanned item to `last_out`. -/
def outPick (me : String) (dm : Option Int × Msg) : Option Int :=
  match dm.1 with
  | some d => if isMe me dm.2 then some d else none
  | none => none

/-- Timestamp contributed by one scanned item to `last_in`. -/
def inPick (me : String) (dm : Option Int × Msg) : Option Int :=
  match dm.1 with
  | some d => if isMe me dm.2 then none else some d
  | none => none

/-- The timestamps of outbound messages with parsable dates. -/
def outTimes (fiso : String → Option Int) (me : String) (messages : List Msg) : List Int :=
  (messages.map (fun m => (_parse_iso_dt fiso (m.date.getD ""), m))).filterMap (outPick me)

/-- The timestamps of inbound messages with parsable dates. -/
def inTimes (fiso : String → Option Int) (me : String) (messages : List Msg) : List Int :=
  (messages.map (fun m => (_parse_iso_dt fiso (m.date.getD ""), m))).filterMap (inPick me)

/-- `M` is the latest (maximal) timestamp of the list. -/
def isLatest (xs : List Int) (M : Int) : Prop :=
  M ∈ xs ∧ ∀ v ∈ xs, v ≤ M

instance (xs : List Int) (M : Int) : Decidable (isLatest xs M) := by
  unfold isLatest
  infer_instance

/-- Last-value-wins fold, the shape of the `last_out` / `last_in` scan. -/
def lastWins (a : Option Int) (xs : List Int) : Option Int :=
  xs.foldl (fun _ v => some v) a

theorem scan_eq (me : String) :
    ∀ (l : List (Option Int × Msg)) (a b : Option Int),
      l.foldl (scanStep me) (a, b)
        = (lastWins a (l.filterMap (outPick me)), lastWins b (l.filterMap (inPick me))) := by
  intro l
  induction l with
  | nil => intro a b; rfl
  | cons dm l ih =>
    intro a b
    show List.foldl (scanStep me) (scanStep me (a, b) dm) l = _
    cases hdm : dm.1 with
    | none =>
      rw [show scanStep me (a, b) dm = (a, b) from by unfold scanStep; rw [hdm]]
      rw [ih]
      rw [show List.filterMap (outPick me) (dm :: l) = List.filterMap (outPick me) l from by
        rw [List.filterMap_cons, show outPick me dm = none from by unfold outPick; rw [hdm]]]
      rw [show List.filterMap (inPick me) (dm :: l) = List.filterMap (inPick me) l from by
        rw [List.filterMap_cons, show inPick me dm = none from by unfold inPick; rw [hdm]]]
    | some d =>
      cases hm : isMe me dm.2 with
      | true =>
        rw [show scanStep me (a, b) dm = (some d, b) from by
          unfold scanStep; rw [hdm]; simp [hm]]
        rw [ih]
        rw [show List.filterMap (outPick me) (dm :: l)
              = d :: List.filterMap (outPick me) l from by
          rw [List.filterMap_cons,
            show outPick me dm = some d from by unfold outPick; rw [hdm]; simp [hm]]]
        rw [show List.filterMap (inPick me) (dm :: l) = List.filterMap (inPick me) l from by
          rw [List.filterMap_cons,
            show inPick me dm = none from by unfold inPick; rw [hdm]; simp [hm]]]
        rfl
      | false =>
        rw [show scanStep me (a, b) dm = (a, some d) from by
          unfold scanStep; rw [hdm]; simp [hm]]
        rw [ih]
        rw [show List.filterMap (outPick me) (dm :: l) = List.filterMap (outPick me) l from by
          rw [List.filterMap_cons,
            show outPick me dm = none from by unfold outPick; rw [hdm]; simp [hm]]]
        rw [show List.filterMap (inPick me) (dm :: l)
              = d :: List.filterMap (inPick me) l from by
          rw [List.filterMap_cons,
            show inPick me dm = some d from by unfold inPick; rw [hdm]; simp [hm]]]
        rfl

theorem lastWins_nil (a : Option Int) : lastWins a [] = a := rfl

theorem sorted_lastWins :
    ∀ (xs : List Int), List.Pairwise (· ≤ ·) xs →
      ∀ (a : Option Int) (M : Int), M ∈ xs → (∀ v ∈ xs, v ≤ M) →
        lastWins a xs = some M := by
  intro xs
  induction xs with
  | nil =>
    intro _ a M hM
    exact absurd hM (List.not_mem_nil M)
  | cons x xs ih =>
    intro hsorted a M hM hbound
    show lastWins (some x) xs = some M
    cases xs with
    | nil =>
      rcases List.mem_singleton.mp hM with rfl
      rfl
    | cons y ys =>
      have hxle : ∀ v ∈ y :: ys, x ≤ v := fun v hv => (List.pairwise_cons.mp hsorted).1 v hv
      have hsorted' := (List.pairwise_cons.mp hsorted).2
      have hbound' : ∀ v ∈ y :: ys, v ≤ M := fun v hv => hbound v (List.mem_cons_of_mem x hv)
      have hmem' : M ∈ y :: ys := by
        rcases List.mem_cons.mp hM with rfl | h
        · have h1 : y ≤ M := hbound y (List.mem_cons_of_mem M (List.mem_cons_self y ys))
          have h2 : M ≤ y := hxle y (List.mem_cons_self y ys)
          have : y = M := le_antisymm h1 h2
          rw [← this]
          exact List.mem_cons_self y ys
        · exact h
      exact ih hsorted' (some x) M hmem' hbound'

theorem infixOfB_nil [BEq α] (l : List α) : infixOfB ([] : List α) l = true := by
  cases l <;> simp [infixOfB, List.isPrefixOf]

theorem isMe_empty (m : Msg) : isMe "" m = true := by
  unfold isMe substr
  exact infixOfB_nil _

theorem inTimes_of_empty_email (fiso : String → Option Int) (messages : List Msg) :
    inTimes fiso "" messages = [] := by
  unfold inTimes
  rw [List.filterMap_eq_nil_iff]
  intro dm _
  unfold inPick
  cases hdm : dm.1 with
  | none => rfl
  | some d => simp [isMe_empty]

theorem outPick_eq_some {me : String} {dm : Option Int × Msg} {v : Int}
    (h : outPick me dm = some v) : dm.1 = some v := by
  cases hdm : dm.1 with
  | none => simp [outPick, hdm] at h
  | some d =>
    simp only [outPick, hdm] at h
    by_cases hm : isMe me dm.2
    · simp only [hm, if_true] at h
      exact h
    · simp [hm] at h

theorem inPick_eq_some {me : String} {dm : Option Int × Msg} {v : Int}
    (h : inPick me dm = some v) : dm.1 = some v := by
  cases hdm : dm.1 with
  | none => simp [inPick, hdm] at h
  | some d =>
    simp only [inPick, hdm] at h
    by_cases hm : isMe me dm.2
    · simp [hm] at h
    · simp only [hm, if_false, Bool.false_eq_true] at h
      exact h

/-- The date-sorted message list of `waiting_on_reply`. -/
def sortedItems (fiso : String → Option Int) (messages : List Msg) :
    List (Option Int × Msg) :=
  List.insertionSort
    (fun a b : Option Int × Msg => a.1.getD dtMin ≤ b.1.getD dtMin)
    (messages.map (fun m => (_parse_iso_dt fiso (m.date.getD ""), m)))

theorem waiting_cases (fiso : String → Option Int) (now : Int) (messages : List Msg)
    (my_email : String) (stale_days : Int) (hme : normEmail my_email ≠ "") :
    waiting_on_reply fiso now messages my_email stale_days
      = (match lastWins none
            ((sortedItems fiso messages).filterMap (outPick (normEmail my_email))) with
         | none => (false, none)
         | some lo =>
           if (match lastWins none
                  ((sortedItems fiso messages).filterMap (inPick (normEmail my_email))) with
               | some li => decide (lo < li)
               | none => false) then (false, some lo)
           else (decide (stale_days ≤ (now - lo).fdiv 86400), some lo)) := by
  unfold waiting_on_reply
  rw [if_neg hme]
  simp only [scan_eq]
  rfl

theorem sortedItems_pairwise (fiso : String → Option Int) (messages : List Msg) :
    List.Pairwise (fun a b : Option Int × Msg => a.1.getD dtMin ≤ b.1.getD dtMin)
      (sortedItems fiso messages) := by
  haveI : IsTotal (Option Int × Msg)
      (fun a b : Option Int × Msg => a.1.getD dtMin ≤ b.1.getD dtMin) :=
    ⟨fun a b => le_total _ _⟩
  haveI : IsTrans (Option Int × Msg)
      (fun a b : Option Int × Msg => a.1.getD dtMin ≤ b.1.getD dtMin) :=
    ⟨fun _ _ _ h1 h2 => le_trans h1 h2⟩
  exact List.sorted_insertionSort _ _

theorem sortedItems_perm (fiso : String → Option Int) (messages : List Msg) :
    List.Perm (sortedItems fiso messages)
      (messages.map (fun m => (_parse_iso_dt fiso (m.date.getD ""), m))) :=
  List.perm_insertionSort _ _

theorem outS_perm (fiso : String → Option Int) (me : String) (messages : List Msg) :
    List.Perm ((sortedItems fiso messages).filterMap (outPick me))
      (outTimes fiso me messages) :=
  (sortedItems_perm fiso messages).filterMap _

theorem inS_perm (fiso : String → Option Int) (me : String) (messages : List Msg) :
    List.Perm ((sortedItems fiso messages).filterMap (inPick me))
      (inTimes fiso me messages) :=
  (sortedItems_perm fiso messages).filterMap _

theorem lastWins_outS {fiso : String → Option Int} {me : String} {messages : List Msg}
    {M : Int} (hM : isLatest (outTimes fiso me messages) M) :
    lastWins none ((sortedItems fiso messages).filterMap (outPick me)) = some M := by
  apply sorted_lastWins
  · exact (sortedItems_pairwise fiso messages).filterMap _
      (fun a b hab x hx y hy => by
        rw [show a.1 = some x from outPick_eq_some hx,
            show b.1 = some y from outPick_eq_some hy] at hab
        simpa using hab)
  · exact ((outS_perm fiso me messages).mem_iff).mpr hM.1
  · intro v hv
    exact hM.2 v (((outS_perm fiso me messages).mem_iff).mp hv)

theorem lastWins_inS {fiso : String → Option Int} {me : String} {messages : List Msg}
    {N : Int} (hN : isLatest (inTimes fiso me messages) N) :
    lastWins none ((sortedItems fiso messages).filterMap (inPick me)) = some N := by
  apply sorted_lastWins
  · exact (sortedItems_pairwise fiso messages).filterMap _
      (fun a b hab x hx y hy => by
        rw [show a.1 = some x from inPick_eq_some hx,
            show b.1 = some y from inPick_eq_some hy] at hab
        simpa using hab)
  · exact ((inS_perm fiso me messages).mem_iff).mpr hN.1
  · intro v hv
    exact hN.2 v (((inS_perm fiso me messages).mem_iff).mp hv)

/--
Claim C8 (amended): for every parser, current time, message list, stale
threshold and `my_email`: (1) when no outbound message from `my_email`
with a parsable date exists, `waiting_on_reply` returns `(false, none)`;
(2) when the latest parsable inbound message is strictly newer than the
latest outbound one, it returns `(false, some lastOutbound)`; (3) PROVIDED
`my_email` is non-empty after lowering/stripping, in the remaining case
(an outbound message exists and no inbound is strictly newer) it returns
`is_stale = true` exactly when the age in whole days of the latest
outbound message, `(now - lastOutbound).days`, is at least `stale_days` —
messages whose dates fail to parse are skipped throughout rather than
aborting.  (When `my_email` normalizes to the empty string the function
returns `(false, none)` unconditionally, which is what the unamended
claim misses.)
-/
theorem claim_C8 (fiso : String → Option Int) (now : Int) (messages : List Msg)
    (my_email : String) (stale_days : Int) :
    (outTimes fiso (normEmail my_email) messages = [] →
        waiting_on_reply fiso now messages my_email stale_days = (false, none))
    ∧ (∀ M N, isLatest (outTimes fiso (normEmail my_email) messages) M →
        isLatest (inTimes fiso (normEmail my_email) messages) N → M < N →
        waiting_on_reply fiso now messages my_email stale_days = (false, some M))
    ∧ (normEmail my_email ≠ "" → ∀ M,
        isLatest (outTimes fiso (normEmail my_email) messages) M →
        (inTimes fiso (normEmail my_email) messages = []
          ∨ ∃ N, isLatest (inTimes fiso (normEmail my_email) messages) N ∧ N ≤ M) →
        waiting_on_reply fiso now messages my_email stale_days
          = (decide (stale_days ≤ (now - M).fdiv 86400), some M)) := by
  by_cases hme : normEmail my_email = ""
  · have hw : waiting_on_reply fiso now messages my_email stale_days = (false, none) := by
      unfold waiting_on_reply
      rw [if_pos hme]
    refine ⟨fun _ => hw, ?_, fun h => absurd hme h⟩
    intro M N _ hN _
    rw [hme] at hN
    rw [inTimes_of_empty_email] at hN
    exact absurd hN.1 (List.not_mem_nil N)
  · refine ⟨?_, ?_, ?_⟩
    · intro h0
      rw [waiting_cases fiso now messages my_email stale_days hme]
      have : (sortedItems fiso messages).filterMap (outPick (normEmail my_email)) = [] := by
        apply List.Perm.eq_nil
        rw [← h0]
        exact outS_perm fiso (normEmail my_email) messages
      rw [this]
      rfl
    · intro M N hM hN hlt
      rw [waiting_cases fiso now messages my_email stale_days hme]
      rw [lastWins_outS hM, lastWins_inS hN]
      simp [hlt]
    · intro _ M hM hOr
      rw [waiting_cases fiso now messages my_email stale_days hme]
      rw [lastWins_outS hM]
      rcases hOr with h0 | ⟨N, hN, hNM⟩
      · have : (sortedItems fiso messages).filterMap (inPick (normEmail my_email)) = [] := by
          apply List.Perm.eq_nil
          rw [← h0]
          exact inS_perm fiso (normEmail my_email) messages
        rw [this]
        rfl
      · rw [lastWins_inS hN]
        have hnlt : ¬ M < N := by omega
        simp [hnlt]

/-- Concrete stdlib-parser stand-in for the C8 counterexample. -/
def cexFiso : String → Option Int :=
  fun s => if s = "D1+00:00" then some 0 else none

/-- One outbound-from-anyone message whose date parses (to timestamp 0). -/
def cexMsgs : List Msg :=
  [⟨some "alice@x.com", some "D1Z", some "hi"⟩]

/--
Claim C8 counterexample: with `my_email = ""` the containment test makes
every message outbound, so at `now` = 20 days past the single message's
parsable timestamp and `stale_days = 14` the claim's third clause demands
`(true, some 0)` — an outbound message exists, no inbound is newer, and
the age (20 days) is ≥ 14 — but the code's empty-email guard returns
`(false, none)`.
-/
theorem claim_C8_counterexample :
    normEmail "" = "" ∧
    isLatest (outTimes cexFiso (normEmail "") cexMsgs) 0 ∧
    inTimes cexFiso (normEmail "") cexMsgs = [] ∧
    (14 : Int) ≤ ((1728000 : Int) - 0).fdiv 86400 ∧
    waiting_on_reply cexFiso 1728000 cexMsgs "" 14 = (false, none) := by
  decide

/-- Concrete stdlib-parser stand-in for the C8 witness. -/
def wFiso : String → Option Int :=
  fun s => if s = "2026-09-22T00:00:00+00:00" then some 0 else none

/-- One outbound message from `me@x.com`, 20 days old, no reply. -/
def wMsgs : List Msg :=
  [⟨some "me@x.com", some "2026-09-22T00:00:00Z", some "ping"⟩]

/-- Witness for C8: the spec's own example — one outbound message 20 days
old, no inbound reply, `stale_days = 14` — yields `(true, that date)`. -/
theorem claim_C8_witness :
    waiting_on_reply wFiso 1728000 wMsgs "me@x.com" 14 = (true, some 0) := by
  have h := (claim_C8 wFiso 1728000 wMsgs "me@x.com" 14).2.2
    (by decide) 0 (by decide) (Or.inl (by decide))
  rw [h]
  decide

/-! ## Schema loader -/

/-- A JSON schema as far as the loader manipulates it: the
`properties.domain.enum` value (present or not) and the rest of the
document, opaque. -/
structure Schema (α : Type) where
  domainEnum : Option (List String)
  rest : α

/-- Modelled from the spec: `load_schema_dynamic`, the schema loader both
application entry points import from `triage`, is missing from the
sources — the `load_schema` present in `triage.py` only reads the JSON
file.  Per spec §4.1: load the base schema; when a non-empty domain list
of at least 2 entries is configured, overwrite the schema's domain enum
with that list; when a default domain is configured and an enum exists,
append the default to the enum if absent.  (File reading is external; the
decoded base schema is the input.) -/
def load_schema_dynamic {α : Type} (base : Schema α) (domains : List String)
    (defaultDomain : Option String) : Schema α :=
  let s1 := if 2 ≤ domains.length then { base with domainEnum := some domains } else base
  match defaultDomain with
  | none => s1
  | some d =>
    match s1.domainEnum with
    | none => s1
    | some e => if d ∈ e then s1 else { s1 with domainEnum := some (e ++ [d]) }

/--
Claim C9: the schema loader loads the base schema (everything outside the
domain enum is preserved); a configured domain list of at least 2 entries
overwrites the domain enum (with the configured default appended when
absent from it); with fewer than 2 configured domains the base enum is
kept, and a configured default is appended to an existing base enum only
when absent (no enum — nothing to append to).
-/
theorem claim_C9 {α : Type} (base : Schema α) (domains : List String) (d : String) :
    (∀ dd, (load_schema_dynamic base domains dd).rest = base.rest)
    ∧ (2 ≤ domains.length →
        (load_schema_dynamic base domains none).domainEnum = some domains)
    ∧ (2 ≤ domains.length →
        (load_schema_dynamic base domains (some d)).domainEnum
          = some (if d ∈ domains then domains else domains ++ [d]))
    ∧ (¬ 2 ≤ domains.length →
        (load_schema_dynamic base domains none).domainEnum = base.domainEnum)
    ∧ (∀ e, ¬ 2 ≤ domains.length → base.domainEnum = some e →
        (load_schema_dynamic base domains (some d)).domainEnum
          = some (if d ∈ e then e else e ++ [d]))
    ∧ (¬ 2 ≤ domains.length → base.domainEnum = none →
        (load_schema_dynamic base domains (some d)).domainEnum = none) := by
  refine ⟨?_, ?_, ?_, ?_, ?_, ?_⟩
  · intro dd
    by_cases h2 : 2 ≤ domains.length <;>
      cases dd <;>
        simp [load_schema_dynamic, h2] <;>
          split <;> simp_all <;> split <;> simp_all
  · intro h2
    simp [load_schema_dynamic, h2]
  · intro h2
    by_cases hd : d ∈ domains <;> simp [load_schema_dynamic, h2, hd]
  · intro h2
    simp [load_schema_dynamic, h2]
  · intro e h2 he
    by_cases hd : d ∈ e <;> simp [load_schema_dynamic, h2, he, hd]
  · intro h2 he
    simp [load_schema_dynamic, h2, he]

/-- Witness for C9: overwrite by a 2-element domain list, append of an
absent default after overwrite, and append of a present default to a
1-element base enum (no overwrite, default already present). -/
theorem claim_C9_witness :
    (load_schema_dynamic (⟨some ["other"], ()⟩ : Schema Unit)
        ["payment", "expiry"] none).domainEnum = some ["payment", "expiry"]
    ∧ (load_schema_dynamic (⟨some ["other"], ()⟩ : Schema Unit)
        ["payment", "expiry"] (some "other")).domainEnum
        = some ["payment", "expiry", "other"]
    ∧ (load_schema_dynamic (⟨some ["other"], ()⟩ : Schema Unit)
        [] (some "other")).domainEnum = some ["other"] :=
  ⟨(claim_C9 ⟨some ["other"], ()⟩ ["payment", "expiry"] "other").2.1 (by decide),
   ((claim_C9 ⟨some ["other"], ()⟩ ["payment", "expiry"] "other").2.2.1 (by decide)).trans
     (by decide),
   ((claim_C9 ⟨some ["other"], ()⟩ [] "other").2.2.2.2.1 ["other"] (by decide) rfl).trans
     (by decide)⟩

/-- A concrete recommended action used by witnesses. -/
def sampleAction : ActionDict :=
  ⟨some "create_task", some "Pay invoice", some "check", some "2024-01-01", some "7d"⟩

/-- A concrete classification output used by witnesses. -/
def sampleOut : TriageDict :=
  { domain := some (some "payment"), intent := some (some "payment_commitment"),
    priority := some (some "high"), confidence := some (some (62/100 : Rat)),
    rationale := some (some "Simulated triage."), extractions := some (some []),
    recommended_actions := some (some [sampleAction]) }

/-- A concrete stored row used by witnesses. -/
def sampleRow : TaskRow :=
  ⟨1, "gmail", "th1", "2024-01-01T00:00:00Z", "open", some "high", "Pay invoice",
   some "2024-01-01", none, "k1"⟩

/-- Witness for C1 at concrete inputs. -/
theorem claim_C1_witness :
    (create_tasks_from_actions
        (create_tasks_from_actions [] "gmail" "th1" "2024-01-02T00:00:00Z" sampleOut)
        "gmail" "th1" "2024-01-02T00:00:00Z" sampleOut
      = create_tasks_from_actions [] "gmail" "th1" "2024-01-02T00:00:00Z" sampleOut)
    ∧ insertOrIgnoreTask [sampleRow]
        ⟨"gmail", "th1", "t", some "high", "T", none, none, "k1"⟩ = [sampleRow]
    ∧ countKey (create_tasks_from_actions [] "gmail" "th1" "2024-01-02T00:00:00Z" sampleOut)
        (_task_key "gmail" "th1" (actionTitle sampleAction) sampleAction.due_date) = 1 := by
  have h := claim_C1 "gmail" "th1" "2024-01-02T00:00:00Z" sampleOut []
  refine ⟨h.1, h.2.1 [sampleRow] ⟨"gmail", "th1", "t", some "high", "T", none, none, "k1"⟩
    (by decide), ?_⟩
  exact (h.2.2 sampleAction (by simp [sampleOut, actionsOf]) (by decide)
    (by simp [sampleOut, taskPriority]) rfl).1

/--
Claim C2 counterexample: the claim "two inputs that differ only in
due_date yield different keys" fails on the code — `due_date = None` and
`due_date = ""` differ, all other fields equal, yet `_task_key` returns
the same key for both (both normalize to the empty due component before
hashing).
-/
theorem claim_C2_counterexample :
    (none : Option String) ≠ some "" ∧
    _task_key "p" "t" "title" none = _task_key "p" "t" "title" (some "") := by
  refine ⟨by simp, ?_⟩
  show sha1Hex (taskKeyBase "p" "t" "title" none)
      = sha1Hex (taskKeyBase "p" "t" "title" (some ""))
  exact congrArg sha1Hex (by decide)

/--
Claim C2 (amended): `_task_key` is a deterministic pure function of the
normalized inputs — equal inputs always yield the same key, and the key is
exactly the SHA-1 hex digest of the normalized base string
`provider|thread_id|title.strip().lower()|(due or '').strip()`.  Two
inputs that differ only in `due_date` yield different base strings (hence
different keys, the hash being injective on them up to SHA-1 collision)
precisely when the stripped due values, with `None` read as `""`, differ;
in particular `None` and `""` yield the very same key.
-/
theorem claim_C2 (p t ti : String) (d1 d2 : Option String) :
    (d1 = d2 → _task_key p t ti d1 = _task_key p t ti d2) ∧
    _task_key p t ti d1 = sha1Hex (taskKeyBase p t ti d1) ∧
    (taskKeyBase p t ti d1 = taskKeyBase p t ti d2 ↔ normDue d1 = normDue d2) :=
  ⟨fun h => by rw [h], rfl, taskKeyBase_eq_iff p t ti d1 d2⟩

/-- Witness for C2 at concrete inputs. -/
theorem claim_C2_witness :
    (_task_key "gmail" "t1" "Pay invoice" (some "2024-01-01")
      = _task_key "gmail" "t1" "Pay invoice" (some "2024-01-01")) ∧
    (taskKeyBase "gmail" "t1" "Pay invoice" (some "2024-01-01")
        = taskKeyBase "gmail" "t1" "Pay invoice" (some "2024-01-02")
      ↔ normDue (some "2024-01-01") = normDue (some "2024-01-02")) :=
  ⟨(claim_C2 "gmail" "t1" "Pay invoice" (some "2024-01-01") (some "2024-01-01")).1 rfl,
   (claim_C2 "gmail" "t1" "Pay invoice" (some "2024-01-01") (some "2024-01-02")).2.2⟩

end EmailMVP
